import Mathlib

/-!
Verification of the graph-viewer core (validator, indexer, statistics,
category colors, edge keys, force-layout initialization, parameter updates,
and the render feed) against its natural-language specification.

The definitions below are shallow embeddings of the TypeScript source:
  - src/renderer/types/graph.ts            (data model)
  - src/renderer/utils  (graph validation / index / stats / edge ids,
                         category color derivation)
  - src/renderer/components/Graph/useForceGraph.ts (layout engine + feed)
  - src/renderer/config/constants.ts       (numeric constants)

Conventions of the embedding:
  - JavaScript numbers are modelled as exact rationals (ℚ); 32-bit integer
    operations (hashString / mulberry32) are modelled as Nat with explicit
    reduction modulo 2^32.
  - JavaScript `Map` objects are modelled as functions `κ → Option β`; a
    `map.set(k, v)` wraps the function so that later insertions override
    earlier ones, exactly as in the source.
  - `charCodeAt` returns UTF-16 code units; `Char.toNat` returns code
    points.  The two agree on the Basic Multilingual Plane, which covers
    every identifier the tool manipulates.
-/

/-- Node record from src/renderer/types/graph.ts.  The optional
`properties` bag is carried by the source type but never read by any of
the core functions modelled here, so it is omitted. -/
structure Node where
  id : String
  name : String
  categories : Option (List String) := none
  color : Option String := none
  level : Option ℚ := none
deriving DecidableEq, Repr

/-- Edge record from src/renderer/types/graph.ts (opaque `properties`
omitted, as for `Node`). -/
structure Edge where
  sourceId : String
  targetId : String
deriving DecidableEq, Repr

/-- GraphData from src/renderer/types/graph.ts. -/
structure GraphData where
  nodes : List Node
  edges : List Edge
deriving DecidableEq, Repr

/-- D3Node: a node enriched with a 2-D position (useForceGraph always
assigns `x`/`y` at construction, so they are not optional here). -/
structure D3Node extends Node where
  x : ℚ
  y : ℚ
deriving DecidableEq, Repr

/-- D3Link as built in useForceGraph: source/target are node identifiers
at construction time. -/
structure D3Link where
  source : String
  target : String
deriving DecidableEq, Repr

/-- GraphStats from src/renderer/types/graph.ts. -/
structure GraphStats where
  nodeCount : Nat
  edgeCount : Nat
  invalidEdges : List Edge
deriving DecidableEq, Repr

/-- Structured validation error: `{ message, field? }`. -/
structure VError where
  message : String
  field : Option String
deriving DecidableEq, Repr

/-- ValidationResult<GraphData>: `{success:true,data}` or
`{success:false,error}`. -/
inductive ValidationResult where
  | success (data : GraphData)
  | failure (error : VError)
deriving DecidableEq, Repr

/-- GraphIndex: both maps modelled as lookup functions built by repeated
override, mirroring JavaScript `Map.set`. -/
structure GraphIndex where
  nodeById : String → Option Node
  edgeByKey : String → Option Edge

/-- CategoryColorMap = Map<string, string>. -/
def CategoryColorMap : Type := String → Option String

/-! ## Constants (src/renderer/config/constants.ts) -/

/-- Edge ID delimiter from graphUtils. -/
def EDGE_ID_DELIMITER : String := "->"

/-- DEFAULT_NODE_COLOR from constants.ts. -/
def DEFAULT_NODE_COLOR : String := "#4A90D9"

/-- SIMULATION_REHEAT_ALPHA from constants.ts. -/
def SIMULATION_REHEAT_ALPHA : ℚ := 3/10

/-- schemeSet3 of d3-scale-chromatic: the fixed 12-color palette bound to
PALETTE in categoryColors.ts. -/
def PALETTE : List String :=
  ["#8dd3c7", "#ffffb3", "#bebada", "#fb8072", "#80b1d3", "#fdb462",
   "#b3de69", "#fccde5", "#d9d9d9", "#bc80bd", "#ccebc5", "#ffed6f"]

/-! ## Edge keys (graphUtils: createEdgeId / parseEdgeId / buildGraphIndex) -/

/-- createEdgeId: source + delimiter + target. -/
def createEdgeId (sourceId targetId : String) : String :=
  sourceId ++ EDGE_ID_DELIMITER ++ targetId

/-- Index of the first occurrence of the two-character delimiter "->" in a
character list; mirrors `edgeId.indexOf(EDGE_ID_DELIMITER)` (with `none`
for the JavaScript result -1). -/
def findDelim : List Char → Option Nat
  | [] => none
  | c :: rest =>
    if c = '-' ∧ rest.head? = some '>' then some 0
    else (findDelim rest).map (· + 1)

/-- parseEdgeId: split at the first occurrence of the delimiter; `none`
when the delimiter does not occur. -/
def parseEdgeId (edgeId : String) : Option (String × String) :=
  match findDelim edgeId.data with
  | none => none
  | some i =>
    some (String.mk (edgeId.data.take i),
          String.mk (edgeId.data.drop (i + 2)))

/-! ## Indexer and statistics (graphUtils) -/

/-- findInvalidEdges: edges whose source or target id matches no node. -/
def findInvalidEdges (graphData : GraphData) : List Edge :=
  let nodeIds := graphData.nodes.map Node.id
  graphData.edges.filter
    (fun edge => !(nodeIds.contains edge.sourceId) ||
                 !(nodeIds.contains edge.targetId))

/-- calculateStats. -/
def calculateStats (graphData : GraphData) : GraphStats :=
  { nodeCount := graphData.nodes.length,
    edgeCount := graphData.edges.length,
    invalidEdges := findInvalidEdges graphData }

/-- buildGraphIndex: one pass per collection, later entries overriding
earlier ones at equal keys exactly as `Map.set` does. -/
def buildGraphIndex (graphData : GraphData) : GraphIndex :=
  { nodeById :=
      graphData.nodes.foldl
        (fun m node => fun k => if k = node.id then some node else m k)
        (fun _ => none),
    edgeByKey :=
      graphData.edges.foldl
        (fun m edge => fun k =>
          if k = edge.sourceId ++ EDGE_ID_DELIMITER ++ edge.targetId
          then some edge else m k)
        (fun _ => none) }

/-- getNodeById (index path and linear-scan fallback). -/
def getNodeById (graphData : GraphData) (id : String)
    (index : Option GraphIndex) : Option Node :=
  match index with
  | some idx => idx.nodeById id
  | none => graphData.nodes.find? (fun n => n.id = id)

/-- getEdgeByIds (index path and linear-scan fallback). -/
def getEdgeByIds (graphData : GraphData) (sourceId targetId : String)
    (index : Option GraphIndex) : Option Edge :=
  match index with
  | some idx => idx.edgeByKey (sourceId ++ EDGE_ID_DELIMITER ++ targetId)
  | none =>
    graphData.edges.find?
      (fun e => e.sourceId = sourceId ∧ e.targetId = targetId)

/-! ## Category colors (categoryColors.ts) -/

/-- Hexadecimal digit test, `[0-9A-Fa-f]`. -/
def isHexDigit (c : Char) : Bool :=
  (48 ≤ c.toNat ∧ c.toNat ≤ 57) ∨
  (65 ≤ c.toNat ∧ c.toNat ≤ 70) ∨
  (97 ≤ c.toNat ∧ c.toNat ≤ 102)

/-- ASCII digit test, `\d`. -/
def isAsciiDigit (c : Char) : Bool := 48 ≤ c.toNat ∧ c.toNat ≤ 57

/-- Whitespace class `\s` of the rgba regex (also the class trimmed by
`String.prototype.trim`): tab, LF, VT, FF, CR, space, NBSP.  The more
exotic Unicode space separators are omitted; no claim exercises them. -/
def isJsWhitespace (c : Char) : Bool :=
  c.toNat = 9 ∨ c.toNat = 10 ∨ c.toNat = 11 ∨ c.toNat = 12 ∨
  c.toNat = 13 ∨ c.toNat = 32 ∨ c.toNat = 160

/-- HEX_COLOR_REGEX: `^#([0-9A-Fa-f]{3}|[0-9A-Fa-f]{6}|[0-9A-Fa-f]{8})$`. -/
def hexColorTest (s : String) : Bool :=
  match s.data with
  | '#' :: rest =>
    rest.all isHexDigit &&
      (rest.length = 3 || rest.length = 6 || rest.length = 8)
  | _ => false

/-- Consume `\d+`: at least one ASCII digit, greedily. -/
def chompDigits : List Char → Option (List Char)
  | l => if (l.takeWhile isAsciiDigit).isEmpty then none
         else some (l.dropWhile isAsciiDigit)

/-- Consume `[\d.]+`: at least one digit-or-dot, greedily. -/
def chompDigitsDots : List Char → Option (List Char)
  | l => if (l.takeWhile (fun c => isAsciiDigit c || c = '.')).isEmpty
         then none
         else some (l.dropWhile (fun c => isAsciiDigit c || c = '.'))

/-- Consume `\s*`. -/
def chompWs (l : List Char) : List Char := l.dropWhile isJsWhitespace

/-- Consume one expected character. -/
def chompChar (c : Char) : List Char → Option (List Char)
  | x :: xs => if x = c then some xs else none
  | [] => none

/-- Tail of RGBA_COLOR_REGEX after `rgba?\(`:
`\s*\d+\s*,\s*\d+\s*,\s*\d+\s*(,\s*[\d.]+\s*)?\)$`.  The character
classes of adjacent regex pieces are disjoint, so the greedy matcher
below is equivalent to the regex. -/
def rgbaBody (l0 : List Char) : Bool :=
  match chompDigits (chompWs l0) with
  | none => false
  | some l1 =>
  match chompChar ',' (chompWs l1) with
  | none => false
  | some l2 =>
  match chompDigits (chompWs l2) with
  | none => false
  | some l3 =>
  match chompChar ',' (chompWs l3) with
  | none => false
  | some l4 =>
  match chompDigits (chompWs l4) with
  | none => false
  | some l5 =>
  match chompWs l5 with
  | ')' :: rest => rest.isEmpty
  | ',' :: l6 =>
    (match chompDigitsDots (chompWs l6) with
     | none => false
     | some l7 =>
       match chompWs l7 with
       | ')' :: rest => rest.isEmpty
       | _ => false)
  | _ => false

/-- RGBA_COLOR_REGEX: `^rgba?\(\s*\d+\s*,\s*\d+\s*,\s*\d+\s*(,\s*[\d.]+\s*)?\)$`. -/
def rgbaColorTest (s : String) : Bool :=
  match s.data with
  | 'r' :: 'g' :: 'b' :: 'a' :: '(' :: rest => rgbaBody rest
  | 'r' :: 'g' :: 'b' :: '(' :: rest => rgbaBody rest
  | _ => false

/-- isValidColor: hex or rgba. -/
def isValidColor (color : String) : Bool :=
  hexColorTest color || rgbaColorTest color

/-- Lexicographic comparison of character lists by code unit, the default
`Array.prototype.sort()` string comparison. -/
def lexLe : List Char → List Char → Bool
  | [], _ => true
  | _ :: _, [] => false
  | a :: as, b :: bs =>
    if a.toNat < b.toNat then true
    else if b.toNat < a.toNat then false
    else lexLe as bs

/-- String comparison used by the JavaScript sort (code points and UTF-16
code units agree on the BMP). -/
def jsStrLe (a b : String) : Prop := lexLe a.data b.data = true

instance : DecidableRel jsStrLe := fun a b => by
  unfold jsStrLe; infer_instance

/-- Insert one category into the accumulated unique list; models
`Set.add` guarded by the truthiness test `if (category)` (which skips
empty strings). -/
def addCategory (acc : List String) (category : String) : List String :=
  if category = "" then acc
  else if acc.contains category then acc
  else acc ++ [category]

/-- First pass of extractCategories: the insertion-ordered unique list of
non-empty categories collected into the `Set`. -/
def collectCategories (nodes : List Node) : List String :=
  nodes.foldl
    (fun acc node =>
      match node.categories with
      | some cats => cats.foldl addCategory acc
      | none => acc)
    []

/-- extractCategories: collect into a set, then sort.  The source sorts
with the default comparator; on a duplicate-free list any comparison sort
yields the same result, so a structurally recursive insertion sort is
used here. -/
def extractCategories (nodes : List Node) : List String :=
  List.insertionSort jsStrLe (collectCategories nodes)

/-- createCategoryColorMap: `forEach((category, index) => set(category,
PALETTE[index % PALETTE.length]))`. -/
def createCategoryColorMap (categories : List String) : CategoryColorMap :=
  categories.enum.foldl
    (fun m p => fun c =>
      if c = p.2 then some (PALETTE.getD (p.1 % PALETTE.length) "")
      else m c)
    (fun _ => none)

/-- The category branch of getNodeColor: the first category's mapped
color with the `?? DEFAULT_NODE_COLOR` fallback, or the default when the
node has no (or an empty) category list. -/
def nodeCategoryColor (node : Node)
    (categoryColorMap : CategoryColorMap) : String :=
  match node.categories with
  | some (firstCategory :: _) =>
    (categoryColorMap firstCategory).getD DEFAULT_NODE_COLOR
  | _ => DEFAULT_NODE_COLOR

/-- getNodeColor: explicit valid color, else first category's palette
color (with default fallback `??`), else default.  `node.color &&`
is JavaScript truthiness, i.e. also rejects the empty string. -/
def getNodeColor (node : Node) (categoryColorMap : CategoryColorMap) :
    String :=
  match node.color with
  | some c =>
    if c ≠ "" ∧ isValidColor c then c
    else nodeCategoryColor node categoryColorMap
  | none => nodeCategoryColor node categoryColorMap

/-! ## Validator (graphValidation.ts: validateGraphData) -/

/-- Untyped JSON-like value, the `unknown` input of validateGraphData.
Input reaching the validator comes from `JSON.parse`, so functions and
`undefined` members do not occur. -/
inductive JValue where
  | jnull
  | jbool (b : Bool)
  | jnum (q : ℚ)
  | jstr (s : String)
  | jarr (elems : List JValue)
  | jobj (fields : List (String × JValue))

/-- JavaScript truthiness of a JValue. -/
def truthy : JValue → Bool
  | .jnull => false
  | .jbool b => b
  | .jnum q => q ≠ 0
  | .jstr s => s ≠ ""
  | .jarr _ => true
  | .jobj _ => true

/-- Whether `typeof v === 'object'` (true for objects and arrays). -/
def isObjLike : JValue → Bool
  | .jobj _ => true
  | .jarr _ => true
  | _ => false

/-- Property access `v[key]` on an object; `none` stands for `undefined`.
With duplicate keys the later binding wins, as in `JSON.parse`. -/
def getField : JValue → String → Option JValue
  | .jobj fields, key =>
    fields.foldl (fun acc p => if p.1 = key then some p.2 else acc) none
  | _, _ => none

/-- Whether `x.trim() === ''`: every character is whitespace. -/
def isBlank (s : String) : Bool := s.data.all isJsWhitespace

/-- Per-node structural check of validateGraphData's first loop, for the
node at index `i`; `none` means the node passes. -/
def checkNode (i : Nat) (v : JValue) : Option VError :=
  if ¬(truthy v ∧ isObjLike v) then
    some ⟨"Node at index " ++ toString i ++ " is not an object",
          some "nodes"⟩
  else
    match getField v "id" with
    | some (.jstr s) =>
      if isBlank s then
        some ⟨"Node at index " ++ toString i ++
                " has invalid or missing \"id\"",
              some "nodes"⟩
      else
        match getField v "name" with
        | some (.jstr _) => none
        | _ =>
          some ⟨"Node at index " ++ toString i ++
                  " has invalid or missing \"name\"",
                some "nodes"⟩
    | _ =>
      some ⟨"Node at index " ++ toString i ++
              " has invalid or missing \"id\"",
            some "nodes"⟩

/-- The node-validation loop, starting at index `i`; returns the first
failure. -/
def checkNodesFrom (i : Nat) : List JValue → Option VError
  | [] => none
  | v :: rest =>
    match checkNode i v with
    | some e => some e
    | none => checkNodesFrom (i + 1) rest

/-- Per-edge structural check, for the edge at index `i`. -/
def checkEdge (i : Nat) (v : JValue) : Option VError :=
  if ¬(truthy v ∧ isObjLike v) then
    some ⟨"Edge at index " ++ toString i ++ " is not an object",
          some "edges"⟩
  else
    match getField v "sourceId" with
    | some (.jstr s) =>
      if isBlank s then
        some ⟨"Edge at index " ++ toString i ++
                " has invalid or missing \"sourceId\"",
              some "edges"⟩
      else
        match getField v "targetId" with
        | some (.jstr t) =>
          if isBlank t then
            some ⟨"Edge at index " ++ toString i ++
                    " has invalid or missing \"targetId\"",
                  some "edges"⟩
          else none
        | _ =>
          some ⟨"Edge at index " ++ toString i ++
                  " has invalid or missing \"targetId\"",
                some "edges"⟩
    | _ =>
      some ⟨"Edge at index " ++ toString i ++
              " has invalid or missing \"sourceId\"",
            some "edges"⟩

/-- The edge-validation loop, starting at index `i`. -/
def checkEdgesFrom (i : Nat) : List JValue → Option VError
  | [] => none
  | v :: rest =>
    match checkEdge i v with
    | some e => some e
    | none => checkEdgesFrom (i + 1) rest

/-- The `node.id` read performed by the duplicate-id loop (which runs
after the per-node loop has guaranteed a string id; the empty-string
fallback is unreachable on validated input). -/
def nodeIdOf (v : JValue) : String :=
  match getField v "id" with
  | some (.jstr s) => s
  | _ => ""

/-- Duplicate scan with the already-seen set; returns the first id seen
twice. -/
def findDup : List String → List String → Option String
  | [], _ => none
  | x :: xs, seen =>
    if seen.contains x then some x else findDup xs (x :: seen)

/-- The `obj.nodes as Node[]` cast, made explicit: project the typed
optional fields from the raw object (fields of unexpected type behave as
absent; the core never reads them on paths the claims exercise). -/
def decodeNode (v : JValue) : Node :=
  { id := nodeIdOf v,
    name :=
      match getField v "name" with
      | some (.jstr s) => s
      | _ => "",
    categories :=
      match getField v "categories" with
      | some (.jarr vs) =>
        some (vs.filterMap (fun w =>
          match w with
          | .jstr s => some s
          | _ => none))
      | _ => none,
    color :=
      match getField v "color" with
      | some (.jstr s) => some s
      | _ => none,
    level :=
      match getField v "level" with
      | some (.jnum q) => some q
      | _ => none }

/-- The `obj.edges as Edge[]` cast, made explicit. -/
def decodeEdge (v : JValue) : Edge :=
  { sourceId :=
      match getField v "sourceId" with
      | some (.jstr s) => s
      | _ => "",
    targetId :=
      match getField v "targetId" with
      | some (.jstr s) => s
      | _ => "" }

/-- validateGraphData: the full check sequence of graphValidation.ts. -/
def validateGraphData (data : JValue) : ValidationResult :=
  if ¬(truthy data ∧ isObjLike data) then
    .failure ⟨"Data must be an object", none⟩
  else
    match getField data "nodes" with
    | some (.jarr nodes) =>
      (match getField data "edges" with
       | some (.jarr edges) =>
         (match checkNodesFrom 0 nodes with
          | some e => .failure e
          | none =>
            match findDup (nodes.map nodeIdOf) [] with
            | some dup =>
              .failure ⟨"Duplicate node ID: \"" ++ dup ++ "\"",
                        some "nodes"⟩
            | none =>
              match checkEdgesFrom 0 edges with
              | some e => .failure e
              | none =>
                .success ⟨nodes.map decodeNode, edges.map decodeEdge⟩)
       | _ =>
         .failure ⟨"Missing or invalid \"edges\" array", some "edges"⟩)
    | _ => .failure ⟨"Missing or invalid \"nodes\" array", some "nodes"⟩

/-! ## Layout engine (useForceGraph.ts) -/

/-- Two to the 32nd, the modulus of JavaScript 32-bit integer coercion. -/
def POW32 : Nat := 4294967296

/-- hashString (djb2): `hash = ((hash << 5) + hash) ^ charCodeAt(i)` over
signed 32-bit coercions, carried here as the unsigned residue mod 2^32
(the two agree modulo 2^32 at every step, and the final `>>> 0`
reinterprets as unsigned). -/
def hashString (str : String) : Nat :=
  str.data.foldl
    (fun hash c => (((hash <<< 5) + hash) % POW32) ^^^ c.toNat)
    5381

/-- One call of the mulberry32 closure of seededRandom: from the current
seed, produce the updated seed and the 32-bit output word.  `Math.imul`
is multiplication mod 2^32; `|`, `^`, `>>>` are the JavaScript 32-bit
bitwise operations on the unsigned representation. -/
def mulberry32 (seed : Nat) : Nat × Nat :=
  let s1 := (seed + 0x6D2B79F5) % POW32
  let t0 := ((s1 ^^^ (s1 >>> 15)) * (s1 ||| 1)) % POW32
  let t1 := (((t0 + (((t0 ^^^ (t0 >>> 7)) * (t0 ||| 61)) % POW32)) % POW32)
             ^^^ t0)
  (s1, t1 ^^^ (t1 >>> 14))

/-- The first value returned by `rng()` for a given seed, as the exact
rational `word / 2^32`. -/
def rngFirst (seed : Nat) : ℚ := ((mulberry32 seed).2 : ℚ) / (POW32 : ℚ)

/-- The second value returned by `rng()` (the closure advanced once). -/
def rngSecond (seed : Nat) : ℚ :=
  ((mulberry32 (mulberry32 seed).1).2 : ℚ) / (POW32 : ℚ)

/-- Initial x of a node: `width / 2 + (rng() - 0.5) * 100` with the first
random draw (object literal fields evaluate in order, x before y). -/
def initX (width : ℚ) (id : String) : ℚ :=
  width / 2 + (rngFirst (hashString id) - 1/2) * 100

/-- Initial y of a node: `height / 2 + (rng() - 0.5) * 100` with the
second random draw. -/
def initY (height : ℚ) (id : String) : ℚ :=
  height / 2 + (rngSecond (hashString id) - 1/2) * 100

/-- The body of the `graphData.nodes.map` building d3Nodes. -/
def mkD3Node (width height : ℚ) (node : Node) : D3Node :=
  { node with x := initX width node.id, y := initY height node.id }

/-- The edge filter of the d3Links construction: edges whose two
endpoints are both in the node-id set. -/
def resolvableEdges (graphData : GraphData) : List Edge :=
  let nodeIds := graphData.nodes.map Node.id
  graphData.edges.filter
    (fun edge => nodeIds.contains edge.sourceId &&
                 nodeIds.contains edge.targetId)

/-- The d3Links construction: keep edges whose two endpoints are node
ids, then project to `{source, target}`. -/
def mkD3Links (graphData : GraphData) : List D3Link :=
  (resolvableEdges graphData).map
    (fun edge => { source := edge.sourceId, target := edge.targetId })

/-- The outcome of Effect 1 of useForceGraph that is visible through the
hook result before any simulation tick: the node array (with seeded
positions), the filtered link array, and the isStable flag. -/
structure LayoutResult where
  nodes : List D3Node
  links : List D3Link
  isStable : Bool
deriving DecidableEq, Repr

/-- Effect 1 (initialization): a null graph or a zero-node graph yields
the empty, immediately-stable layout; otherwise seeded nodes, filtered
links, and isStable = false until the simulation ends. -/
def initEffect (graphData : Option GraphData) (width height : ℚ)
    (radialLayout : Bool) : LayoutResult :=
  match graphData with
  | none => { nodes := [], links := [], isStable := true }
  | some g =>
    if g.nodes.length = 0 then
      { nodes := [], links := [], isStable := true }
    else
      { nodes := g.nodes.map (mkD3Node width height),
        links := mkD3Links g,
        isStable := false }

/-- The `maxLevel` accumulation loop of Effect 1 before the `+= 1`:
start at 0 and raise to any strictly larger defined level. -/
def maxLevelFold (nodes : List Node) : ℚ :=
  nodes.foldl
    (fun maxLevel node =>
      match node.level with
      | some l => if l > maxLevel then l else maxLevel
      | none => maxLevel)
    0

/-- `maxLevel` as used by the radial force: the loop result plus one in
radial mode (`maxLevel += 1` inside `if (radialLayout)`), 0 otherwise. -/
def maxLevelOf (radialLayout : Bool) (g : GraphData) : ℚ :=
  if radialLayout then maxLevelFold g.nodes + 1 else 0

/-- `radiusPerLevel = radialLayout && maxLevel > 0 ? (min(width, height)
/ 2 - 80) / maxLevel : 0`. -/
def radiusPerLevelOf (width height : ℚ) (radialLayout : Bool)
    (g : GraphData) : ℚ :=
  if radialLayout ∧ 0 < maxLevelOf radialLayout g then
    (min width height / 2 - 80) / maxLevelOf radialLayout g
  else 0

/-- The radius accessor of the radial force: a node's level (or, when
undefined, `maxLevel`) times `radiusPerLevel`. -/
def radialTargetRadius (width height : ℚ) (g : GraphData) (node : Node) :
    ℚ :=
  (match node.level with
   | some l => l
   | none => maxLevelOf true g) * radiusPerLevelOf width height true g

/-! ## Live parameter updates (useForceGraph Effect 2) -/

/-- The tunable force parameters. -/
structure ForceParams where
  linkDistance : ℚ
  chargeStrength : ℚ
  collisionRadius : ℚ
deriving DecidableEq, Repr

/-- The simulation state Effect 2 can observe and mutate: the node array
(with current positions), the link array, the three named forces'
parameters, the global alpha, and the hook's isStable flag. -/
structure SimulationState where
  nodes : List D3Node
  links : List D3Link
  linkDistance : ℚ
  chargeStrength : ℚ
  collisionRadius : ℚ
  alpha : ℚ
  isStable : Bool
deriving DecidableEq, Repr

/-- Effect 2 (setParams): in radial mode return unchanged (early return
when `isRadialRef.current`); in force mode update the three forces in
place, set alpha to the reheat value, and clear isStable.  The node and
link arrays are untouched. -/
def setParamsEffect (radialLayout : Bool) (forceParams : ForceParams)
    (s : SimulationState) : SimulationState :=
  if radialLayout then s
  else
    { s with
      linkDistance := forceParams.linkDistance,
      chargeStrength := forceParams.chargeStrength,
      collisionRadius := forceParams.collisionRadius,
      alpha := SIMULATION_REHEAT_ALPHA,
      isStable := false }

/-! ## Render feed (useForceGraph tick/end handlers) -/

/-- Observable state of the animation-frame-batched render feed:
`pending` is whether `rafIdRef.current` holds a scheduled refresh,
`engineVersion` counts completed simulation ticks (each tick commits new
positions into the mutable node array), `published` is the tick whose
positions the view was last given, and `refreshCount` counts
`requestAnimationFrame` calls. -/
structure FeedState where
  pending : Bool
  engineVersion : Nat
  published : Nat
  refreshCount : Nat
  isStable : Bool
deriving DecidableEq, Repr

/-- Events hitting the feed: a simulation tick, the firing of the
scheduled animation frame, and the simulation's end event. -/
inductive FeedEvent where
  | tick
  | frame
  | simEnd
deriving DecidableEq, Repr

/-- One step of the feed.  On `tick` the engine first commits the new
positions (version increment); the handler then schedules a refresh only
when none is pending.  On `frame` the callback clears the pending flag
and re-renders, exposing the positions as of the latest completed tick.
On the `end` event the handler re-renders unconditionally and raises
isStable. -/
def feedStep (s : FeedState) : FeedEvent → FeedState
  | .tick =>
    let s1 := { s with engineVersion := s.engineVersion + 1 }
    if s1.pending then s1
    else { s1 with pending := true, refreshCount := s1.refreshCount + 1 }
  | .frame =>
    if s.pending then
      { s with pending := false, published := s.engineVersion }
    else s
  | .simEnd =>
    { s with published := s.engineVersion, isStable := true }

/-- `n` consecutive ticks, none of them interleaved with a frame. -/
def processTicks : Nat → FeedState → FeedState
  | 0, s => s
  | n + 1, s => processTicks n (feedStep s .tick)

/-! ## Auxiliary definitions used by the claim statements -/

/-- The composite key of an edge, `sourceId + '->' + targetId`. -/
def edgeKeyOf (edge : Edge) : String :=
  edge.sourceId ++ EDGE_ID_DELIMITER ++ edge.targetId

/-- An occurrence of the delimiter "->" somewhere in a character list
(the spec-level notion used by the round-trip claim). -/
def occursDelim (l : List Char) : Prop :=
  ∃ i, (l.drop i).take 2 = ['-', '>']

/-- Claim C4's success condition, stated with the claim's own words: a
non-empty-string identifier (no trimming), a string name, pairwise
distinct identifiers, non-empty-string edge endpoints. -/
def claimNodeOk (v : JValue) : Bool :=
  truthy v && isObjLike v &&
  (match getField v "id" with
   | some (.jstr s) => s ≠ ""
   | _ => false) &&
  (match getField v "name" with
   | some (.jstr _) => true
   | _ => false)

/-- Claim C4's per-edge condition, with plain non-emptiness. -/
def claimEdgeOk (v : JValue) : Bool :=
  truthy v && isObjLike v &&
  (match getField v "sourceId" with
   | some (.jstr s) => s ≠ ""
   | _ => false) &&
  (match getField v "targetId" with
   | some (.jstr s) => s ≠ ""
   | _ => false)

/-- Claim C4's whole-input success condition, as the claim states it. -/
def claimCond (v : JValue) : Bool :=
  truthy v && isObjLike v &&
  (match getField v "nodes", getField v "edges" with
   | some (.jarr ns), some (.jarr es) =>
     ns.all claimNodeOk && decide (ns.map nodeIdOf).Nodup &&
       es.all claimEdgeOk
   | _, _ => false)

/-- The amended per-node condition: the identifier must contain at least
one non-whitespace character (`id.trim() !== ''`), matching the code. -/
def amendedNodeOk (v : JValue) : Bool :=
  truthy v && isObjLike v &&
  (match getField v "id" with
   | some (.jstr s) => !(isBlank s)
   | _ => false) &&
  (match getField v "name" with
   | some (.jstr _) => true
   | _ => false)

/-- The amended per-edge condition, with trim-aware non-emptiness. -/
def amendedEdgeOk (v : JValue) : Bool :=
  truthy v && isObjLike v &&
  (match getField v "sourceId" with
   | some (.jstr s) => !(isBlank s)
   | _ => false) &&
  (match getField v "targetId" with
   | some (.jstr s) => !(isBlank s)
   | _ => false)

/-- The amended whole-input success condition. -/
def amendedCond (v : JValue) : Bool :=
  truthy v && isObjLike v &&
  (match getField v "nodes", getField v "edges" with
   | some (.jarr ns), some (.jarr es) =>
     ns.all amendedNodeOk && decide (ns.map nodeIdOf).Nodup &&
       es.all amendedEdgeOk
   | _, _ => false)

/-! ## Order-theoretic facts about the sort comparison -/

instance : IsTotal String jsStrLe where
  total a b := by
    unfold jsStrLe
    generalize a.data = l
    generalize b.data = m
    induction l generalizing m with
    | nil => left; rfl
    | cons x xs ih =>
      cases m with
      | nil => right; rfl
      | cons y ys =>
        simp only [lexLe]
        rcases Nat.lt_trichotomy x.toNat y.toNat with h | h | h
        · left; simp [h]
        · have : ¬ x.toNat < y.toNat := by omega
          have : ¬ y.toNat < x.toNat := by omega
          rcases ih ys with h2 | h2 <;> [left; right] <;> simp_all
        · right; simp [h, Nat.lt_asymm h]

instance : IsTrans String jsStrLe where
  trans a b c := by
    unfold jsStrLe
    generalize a.data = l
    generalize b.data = m
    generalize c.data = n
    intro hab hbc
    induction l generalizing m n with
    | nil => rfl
    | cons x xs ih =>
      cases m with
      | nil => simp [lexLe] at hab
      | cons y ys =>
        cases n with
        | nil => simp [lexLe] at hbc
        | cons z zs =>
          simp only [lexLe] at hab hbc ⊢
          split_ifs at hab hbc ⊢ <;> try rfl
          all_goals first
            | omega
            | (exact ih ys zs hab hbc)

instance : IsAntisymm String jsStrLe where
  antisymm a b := by
    unfold jsStrLe
    intro hab hba
    apply String.ext
    revert hab hba
    generalize a.data = l
    generalize b.data = m
    clear a b
    induction l generalizing m with
    | nil =>
      cases m with
      | nil => intro _ _; rfl
      | cons y ys => intro _ hba; simp [lexLe] at hba
    | cons x xs ih =>
      cases m with
      | nil => intro hab _; simp [lexLe] at hab
      | cons y ys =>
        intro hab hba
        simp only [lexLe] at hab hba
        split_ifs at hab hba <;> try omega
        have hxy : x = y := by
          have : x.toNat = y.toNat := by omega
          cases x; cases y
          simp only [Char.toNat] at this
          congr 1
          exact UInt32.toNat.inj this
        subst hxy
        rw [ih ys hab hba]

/-! ## Concrete inputs used by witnesses and counterexamples -/

/-- A raw JSON node object `{id, name}`. -/
def nodeJ (id name : String) : JValue :=
  .jobj [("id", .jstr id), ("name", .jstr name)]

/-- A raw JSON edge object `{sourceId, targetId}`. -/
def edgeJ (sourceId targetId : String) : JValue :=
  .jobj [("sourceId", .jstr sourceId), ("targetId", .jstr targetId)]

/-- A raw graph document `{nodes, edges}`. -/
def graphJ (nodes edges : List JValue) : JValue :=
  .jobj [("nodes", .jarr nodes), ("edges", .jarr edges)]

/-- A plain node value with only id and name. -/
def plainNode (id name : String) : Node :=
  { id := id, name := name }

/-- Scenario A input: two nodes and one edge between them. -/
def jGood : JValue :=
  graphJ [nodeJ "a" "A", nodeJ "b" "B"] [edgeJ "a" "b"]

/-- The validated graph of scenario A. -/
def gGood : GraphData :=
  ⟨[plainNode "a" "A", plainNode "b" "B"], [⟨"a", "b"⟩]⟩

/-- Scenario B input: one node and an edge to a missing node. -/
def jMiss : JValue := graphJ [nodeJ "a" "A"] [edgeJ "a" "missing"]

/-- The validated graph of scenario B. -/
def gMiss : GraphData := ⟨[plainNode "a" "A"], [⟨"a", "missing"⟩]⟩

/-- Delimiter-collision input: identifiers containing the edge-key
delimiter make the composite keys of the two distinct edges collide. -/
def jColl : JValue :=
  graphJ
    [nodeJ "a" "A", nodeJ "b->c" "B", nodeJ "a->b" "C", nodeJ "c" "D"]
    [edgeJ "a" "b->c", edgeJ "a->b" "c"]

/-- The validated graph of the delimiter-collision input. -/
def gColl : GraphData :=
  ⟨[plainNode "a" "A", plainNode "b->c" "B", plainNode "a->b" "C",
    plainNode "c" "D"],
   [⟨"a", "b->c"⟩, ⟨"a->b", "c"⟩]⟩

/-- A whitespace-only identifier: non-empty as a string, but rejected by
the validator's `id.trim() === ''` test. -/
def jBlankId : JValue := graphJ [nodeJ " " "A"] []

/-- An input with a missing name at index 1 and a duplicate id "x": both
the per-node check and the duplicate check would fail; the code reports
the per-node failure. -/
def jNameAndDup : JValue :=
  graphJ [nodeJ "x" "X", .jobj [("id", .jstr "x")]] []

/-! ## Shared helper lemmas -/

/-- Complementary filters partition a list's length. -/
theorem length_filter_partition {α : Type} (p : α → Bool) (l : List α) :
    (l.filter p).length + (l.filter (fun a => !(p a))).length = l.length := by
  induction l with
  | nil => rfl
  | cons a t ih =>
    cases h : p a <;> simp [List.filter_cons, h, ← ih] <;> omega

/-- A fold of `Map.set`-style overrides leaves keys it never writes
untouched. -/
theorem foldUpd_apply_notmem {α β κ : Type} [DecidableEq κ]
    (key : α → κ) (val : α → β) (l : List α) (m0 : κ → Option β) (k : κ)
    (hk : k ∉ l.map key) :
    l.foldl (fun m x => fun k' => if k' = key x then some (val x) else m k')
        m0 k = m0 k := by
  induction l generalizing m0 with
  | nil => rfl
  | cons a t ih =>
    simp only [List.map_cons, List.mem_cons, not_or] at hk
    rw [List.foldl_cons, ih _ hk.2]
    simp [hk.1]

/-- A fold of `Map.set`-style overrides, over entries with pairwise
distinct keys, maps each entry's key to that entry's value. -/
theorem foldUpd_apply_mem {α β κ : Type} [DecidableEq κ]
    (key : α → κ) (val : α → β) (l : List α) (m0 : κ → Option β) (a : α)
    (ha : a ∈ l) (hnd : (l.map key).Nodup) :
    l.foldl (fun m x => fun k' => if k' = key x then some (val x) else m k')
        m0 (key a) = some (val a) := by
  induction l generalizing m0 with
  | nil => cases ha
  | cons b t ih =>
    rw [List.foldl_cons]
    simp only [List.map_cons, List.nodup_cons] at hnd
    rcases List.mem_cons.mp ha with rfl | hat
    · rw [foldUpd_apply_notmem key val t _ _ hnd.1]
      simp
    · exact ih _ hat hnd.2

/-- C5.  Live parameter update frame property: in force mode the
parameter-update effect rewrites only the link-distance, charge-strength
and collision-radius of the existing forces and sets alpha to the fixed
reheat value 0.3 (non-zero); the node and link arrays — and hence every
node's current position — are untouched; in radial mode the effect
performs no update at all. -/
theorem c5_live_parameter_update (radialLayout : Bool)
    (p : ForceParams) (s : SimulationState) :
    (radialLayout = true → setParamsEffect radialLayout p s = s) ∧
    (radialLayout = false →
      (setParamsEffect radialLayout p s).nodes = s.nodes ∧
      (setParamsEffect radialLayout p s).links = s.links ∧
      (setParamsEffect radialLayout p s).linkDistance = p.linkDistance ∧
      (setParamsEffect radialLayout p s).chargeStrength =
        p.chargeStrength ∧
      (setParamsEffect radialLayout p s).collisionRadius =
        p.collisionRadius ∧
      (setParamsEffect radialLayout p s).alpha = SIMULATION_REHEAT_ALPHA ∧
      SIMULATION_REHEAT_ALPHA = 3/10 ∧ SIMULATION_REHEAT_ALPHA ≠ 0) := by
  constructor
  · intro h
    simp [setParamsEffect, h]
  · intro h
    subst h
    refine ⟨rfl, rfl, rfl, rfl, rfl, rfl, rfl, ?_⟩
    norm_num [SIMULATION_REHEAT_ALPHA]

/-- Witness for C5 at a concrete state and parameter set. -/
theorem c5_live_parameter_update_witness :
    (setParamsEffect true ⟨150, -400, 45⟩
        ⟨[], [], 1, 2, 3, 1, true⟩ = ⟨[], [], 1, 2, 3, 1, true⟩) ∧
    (setParamsEffect false ⟨150, -400, 45⟩
          ⟨[], [], 1, 2, 3, 1, true⟩).nodes = [] ∧
    (setParamsEffect false ⟨150, -400, 45⟩
          ⟨[], [], 1, 2, 3, 1, true⟩).alpha = SIMULATION_REHEAT_ALPHA := by
  refine ⟨(c5_live_parameter_update true ⟨150, -400, 45⟩
      ⟨[], [], 1, 2, 3, 1, true⟩).1 rfl, ?_, ?_⟩
  · exact ((c5_live_parameter_update false ⟨150, -400, 45⟩
      ⟨[], [], 1, 2, 3, 1, true⟩).2 rfl).1
  · exact ((c5_live_parameter_update false ⟨150, -400, 45⟩
      ⟨[], [], 1, 2, 3, 1, true⟩).2 rfl).2.2.2.2.2.1

/-- C8.  Zero-node degradation: a null graph, and a validated graph with
zero nodes, both yield an immediately-stable empty layout — empty node
and link arrays with isStable true — rather than a running state. -/
theorem c8_zero_node_degradation (g : GraphData) (width height : ℚ)
    (radialLayout : Bool) (h0 : g.nodes.length = 0) :
    initEffect none width height radialLayout =
      { nodes := [], links := [], isStable := true } ∧
    initEffect (some g) width height radialLayout =
      { nodes := [], links := [], isStable := true } := by
  refine ⟨rfl, ?_⟩
  simp [initEffect, h0]

/-- Witness for C8: a graph value with zero nodes (but a stray edge). -/
theorem c8_zero_node_degradation_witness :
    initEffect none (800 : ℚ) 600 false =
      { nodes := [], links := [], isStable := true } ∧
    initEffect (some ⟨[], [⟨"a", "b"⟩]⟩) (800 : ℚ) 600 false =
      { nodes := [], links := [], isStable := true } :=
  c8_zero_node_degradation ⟨[], [⟨"a", "b"⟩]⟩ 800 600 false rfl

/-- While a refresh is pending, further ticks advance positions but never
schedule another refresh and never clear the pending one. -/
theorem processTicks_of_pending (k : Nat) (s : FeedState)
    (h : s.pending = true) :
    (processTicks k s).pending = true ∧
    (processTicks k s).refreshCount = s.refreshCount ∧
    (processTicks k s).engineVersion = s.engineVersion + k ∧
    (processTicks k s).published = s.published := by
  induction k generalizing s with
  | zero => exact ⟨h, rfl, rfl, rfl⟩
  | succ n ih =>
    have hstep : feedStep s .tick =
        { s with engineVersion := s.engineVersion + 1 } := by
      simp [feedStep, h]
    have hp2 : (feedStep s .tick).pending = true := by rw [hstep]; exact h
    obtain ⟨h1, h2, h3, h4⟩ := ih (feedStep s .tick) hp2
    have hpt : processTicks (n + 1) s = processTicks n (feedStep s .tick) :=
      rfl
    refine ⟨?_, ?_, ?_, ?_⟩
    · rw [hpt]; exact h1
    · rw [hpt, h2, hstep]
    · rw [hpt, h3, hstep]
      show s.engineVersion + 1 + n = s.engineVersion + (n + 1)
      omega
    · rw [hpt, h4, hstep]

/-- C6.  Render coalescing: from a state with no pending refresh, a burst
of N ≥ 1 ticks schedules exactly one refresh (the later ticks coalesce
into it); when that refresh fires it publishes the positions of tick N,
the most recent one; and the simulation-end event publishes
unconditionally, whatever the state. -/
theorem c6_render_coalescing (s : FeedState) (n : Nat) (hn : 0 < n)
    (hp : s.pending = false) :
    (processTicks n s).refreshCount = s.refreshCount + 1 ∧
    (processTicks n s).pending = true ∧
    (processTicks n s).engineVersion = s.engineVersion + n ∧
    (feedStep (processTicks n s) .frame).published =
      s.engineVersion + n ∧
    (feedStep (processTicks n s) .frame).pending = false ∧
    (∀ s' : FeedState, (feedStep s' .simEnd).published =
        s'.engineVersion ∧ (feedStep s' .simEnd).isStable = true) := by
  obtain ⟨m, rfl⟩ : ∃ m, n = m + 1 := ⟨n - 1, by omega⟩
  have hstep : feedStep s .tick =
      { s with engineVersion := s.engineVersion + 1, pending := true,
               refreshCount := s.refreshCount + 1 } := by
    simp [feedStep, hp]
  obtain ⟨h1, h2, h3, h4⟩ := processTicks_of_pending m (feedStep s .tick)
    (by rw [hstep])
  have hpt : processTicks (m + 1) s = processTicks m (feedStep s .tick) :=
    rfl
  have hframe : ∀ t : FeedState, t.pending = true →
      feedStep t .frame =
        { t with pending := false, published := t.engineVersion } := by
    intro t ht
    simp [feedStep, ht]
  have hcount : (processTicks (m + 1) s).refreshCount =
      s.refreshCount + 1 := by rw [hpt, h2, hstep]
  have hpend : (processTicks (m + 1) s).pending = true := by
    rw [hpt]; exact h1
  have hver : (processTicks (m + 1) s).engineVersion =
      s.engineVersion + (m + 1) := by
    rw [hpt, h3, hstep]
    show s.engineVersion + 1 + m = s.engineVersion + (m + 1)
    omega
  refine ⟨hcount, hpend, hver, ?_, ?_, ?_⟩
  · rw [hframe _ hpend]
    exact hver
  · rw [hframe _ hpend]
  · intro s'
    exact ⟨rfl, rfl⟩

/-- Witness for C6: a concrete three-tick burst from the initial state. -/
theorem c6_render_coalescing_witness :
    (processTicks 3 ⟨false, 0, 0, 0, false⟩).refreshCount = 0 + 1 ∧
    (processTicks 3 ⟨false, 0, 0, 0, false⟩).pending = true ∧
    (feedStep (processTicks 3 ⟨false, 0, 0, 0, false⟩) .frame).published
      = 0 + 3 := by
  have h := c6_render_coalescing ⟨false, 0, 0, 0, false⟩ 3
    (by decide) rfl
  exact ⟨h.1, h.2.1, h.2.2.2.1⟩

/-- The level-maximum loop never goes below its starting accumulator. -/
theorem levelFold_ge_start (nodes : List Node) (a : ℚ) :
    a ≤ nodes.foldl
      (fun maxLevel node =>
        match node.level with
        | some l => if l > maxLevel then l else maxLevel
        | none => maxLevel) a := by
  induction nodes generalizing a with
  | nil => exact le_refl a
  | cons b t ih =>
    refine le_trans ?_ (ih _)
    rcases hb : b.level with _ | l
    · simp [hb]
    · simp only [hb]
      split_ifs with hgt
      · exact le_of_lt hgt
      · exact le_refl a

/-- The level-maximum loop dominates every defined level of the list. -/
theorem levelFold_ge_mem (nodes : List Node) (a : ℚ) (n : Node)
    (hn : n ∈ nodes) (l : ℚ) (hl : n.level = some l) :
    l ≤ nodes.foldl
      (fun maxLevel node =>
        match node.level with
        | some l' => if l' > maxLevel then l' else maxLevel
        | none => maxLevel) a := by
  induction nodes generalizing a with
  | nil => cases hn
  | cons b t ih =>
    rcases List.mem_cons.mp hn with rfl | hnt
    · rw [List.foldl_cons]
      refine le_trans ?_ (levelFold_ge_start t _)
      rw [hl]
      simp only
      split_ifs with hgt
      · exact le_refl l
      · exact le_of_not_lt hgt
    · exact ih _ hnt

/-- The level-maximum loop's result is its start or an attained level. -/
theorem levelFold_attained (nodes : List Node) (a : ℚ) :
    nodes.foldl
      (fun maxLevel node =>
        match node.level with
        | some l => if l > maxLevel then l else maxLevel
        | none => maxLevel) a = a ∨
    ∃ n ∈ nodes, n.level = some (nodes.foldl
      (fun maxLevel node =>
        match node.level with
        | some l => if l > maxLevel then l else maxLevel
        | none => maxLevel) a) := by
  induction nodes generalizing a with
  | nil => left; rfl
  | cons b t ih =>
    rw [List.foldl_cons]
    rcases ih ((fun maxLevel node =>
        match node.level with
        | some l => if l > maxLevel then l else maxLevel
        | none => maxLevel) a b) with heq | ⟨n, hn, hlev⟩
    · rw [heq]
      rcases hb : b.level with _ | l
      · left; simp [hb]
      · by_cases hgt : l > a
        · right
          refine ⟨b, List.mem_cons_self b t, ?_⟩
          rw [hb]
          simp [hb, hgt]
        · left; simp [hb, hgt]
    · right; exact ⟨n, List.mem_cons_of_mem b hn, hlev⟩

/-- C7.  Radial target-radius assignment: each node's radial-force target
radius is its level times radiusPerLevel (so level 0 maps to radius 0 and
level k to a radius proportional to k); a node with no level gets the
ring one past the observed maximum (maxLevelFold + 1, where maxLevelFold
bounds every assigned level and is attained or zero); and radiusPerLevel
is derived from the smaller viewport dimension. -/
theorem c7_radial_target_radius (w h : ℚ) (g : GraphData) (n : Node) :
    (∀ l, n.level = some l →
        radialTargetRadius w h g n = l * radiusPerLevelOf w h true g) ∧
    (n.level = some 0 → radialTargetRadius w h g n = 0) ∧
    (n.level = none →
        radialTargetRadius w h g n =
          (maxLevelFold g.nodes + 1) * radiusPerLevelOf w h true g) ∧
    radiusPerLevelOf w h true g =
      (min w h / 2 - 80) / (maxLevelFold g.nodes + 1) ∧
    (∀ m ∈ g.nodes, ∀ l, m.level = some l → l ≤ maxLevelFold g.nodes) ∧
    (0 : ℚ) ≤ maxLevelFold g.nodes ∧
    (maxLevelFold g.nodes = 0 ∨
      ∃ m ∈ g.nodes, m.level = some (maxLevelFold g.nodes)) := by
  have hnonneg : (0 : ℚ) ≤ maxLevelFold g.nodes :=
    levelFold_ge_start g.nodes 0
  have hpos : 0 < maxLevelOf true g := by
    unfold maxLevelOf
    simp only [if_true]
    linarith
  have hrpl : radiusPerLevelOf w h true g =
      (min w h / 2 - 80) / (maxLevelFold g.nodes + 1) := by
    unfold radiusPerLevelOf
    rw [if_pos ⟨rfl, hpos⟩]
    unfold maxLevelOf
    simp
  refine ⟨?_, ?_, ?_, hrpl, ?_, hnonneg, ?_⟩
  · intro l hl
    unfold radialTargetRadius
    rw [hl]
  · intro hl
    unfold radialTargetRadius
    rw [hl]
    simp
  · intro hl
    unfold radialTargetRadius
    rw [hl]
    unfold maxLevelOf
    simp
  · intro m hm l hl
    exact levelFold_ge_mem g.nodes 0 m hm l hl
  · exact levelFold_attained g.nodes 0

/-- Witness for C7 on a three-node graph with levels 0, 2 and none. -/
theorem c7_radial_target_radius_witness :
    radialTargetRadius 800 600
        ⟨[⟨"r", "R", none, none, some 0⟩, ⟨"s", "S", none, none, some 2⟩,
          ⟨"t", "T", none, none, none⟩], []⟩
        ⟨"r", "R", none, none, some 0⟩ = 0 ∧
    radialTargetRadius 800 600
        ⟨[⟨"r", "R", none, none, some 0⟩, ⟨"s", "S", none, none, some 2⟩,
          ⟨"t", "T", none, none, none⟩], []⟩
        ⟨"s", "S", none, none, some 2⟩ =
      2 * radiusPerLevelOf 800 600 true
        ⟨[⟨"r", "R", none, none, some 0⟩, ⟨"s", "S", none, none, some 2⟩,
          ⟨"t", "T", none, none, none⟩], []⟩ ∧
    radialTargetRadius 800 600
        ⟨[⟨"r", "R", none, none, some 0⟩, ⟨"s", "S", none, none, some 2⟩,
          ⟨"t", "T", none, none, none⟩], []⟩
        ⟨"t", "T", none, none, none⟩ =
      (maxLevelFold [⟨"r", "R", none, none, some 0⟩,
          ⟨"s", "S", none, none, some 2⟩,
          ⟨"t", "T", none, none, none⟩] + 1) *
        radiusPerLevelOf 800 600 true
          ⟨[⟨"r", "R", none, none, some 0⟩, ⟨"s", "S", none, none, some 2⟩,
            ⟨"t", "T", none, none, none⟩], []⟩ := by
  refine ⟨(c7_radial_target_radius 800 600 _ _).2.1 rfl,
          (c7_radial_target_radius 800 600 _ _).1 2 rfl,
          (c7_radial_target_radius 800 600 _ _).2.2.1 rfl⟩

/-- Rebuilding a string from its character data is the identity. -/
theorem stringMk_data (s : String) : String.mk s.data = s := by
  cases s
  rfl

/-- Inversion for findDelim on a cons cell returning none. -/
theorem findDelim_cons_none (c : Char) (rest : List Char)
    (h : findDelim (c :: rest) = none) :
    ¬(c = '-' ∧ rest.head? = some '>') ∧ findDelim rest = none := by
  simp only [findDelim] at h
  split_ifs at h with hc
  refine ⟨hc, ?_⟩
  cases hrest : findDelim rest with
  | none => rfl
  | some j =>
    rw [hrest] at h
    simp at h

/-- findDelim finds nothing exactly when no two consecutive characters
form the delimiter. -/
theorem findDelim_eq_none_iff (l : List Char) :
    findDelim l = none ↔ ∀ i, (l.drop i).take 2 ≠ ['-', '>'] := by
  induction l with
  | nil => simp [findDelim]
  | cons c rest ih =>
    constructor
    · intro h i
      obtain ⟨hc, hrest⟩ := findDelim_cons_none c rest h
      cases i with
      | zero =>
        intro habs
        apply hc
        cases rest with
        | nil => simp at habs
        | cons d rest' =>
          simp only [List.drop_zero, List.take_cons] at habs
          injection habs with h1 h2
          injection h2 with h3
          exact ⟨h1, by rw [h3]; rfl⟩
      | succ j =>
        exact (ih.mp hrest) j
    · intro h
      simp only [findDelim]
      have hc : ¬(c = '-' ∧ rest.head? = some '>') := by
        rintro ⟨rfl, hhead⟩
        apply h 0
        cases rest with
        | nil => simp at hhead
        | cons d rest' =>
          simp only [List.head?] at hhead
          injection hhead with hd
          subst hd
          rfl
      rw [if_neg hc, ih.mpr (fun i => h (i + 1))]
      rfl

/-- A delimiter index returned by findDelim really points at the
delimiter. -/
theorem findDelim_some_occurs (l : List Char) (i : Nat)
    (h : findDelim l = some i) : (l.drop i).take 2 = ['-', '>'] := by
  induction l generalizing i with
  | nil => cases h
  | cons c rest ih =>
    simp only [findDelim] at h
    split_ifs at h with hc
    · injection h with h0
      subst h0
      obtain ⟨rfl, hhead⟩ := hc
      cases rest with
      | nil => simp at hhead
      | cons d rest' =>
        simp only [List.head?] at hhead
        injection hhead with hd
        subst hd
        rfl
    · cases hrest : findDelim rest with
      | none => rw [hrest] at h; cases h
      | some j =>
        rw [hrest] at h
        simp only [Option.map_some'] at h
        injection h with hj
        subst hj
        exact ih j hrest

/-- When the prefix is delimiter-free, the first delimiter occurrence in
`s ++ "->" ++ t` is exactly at the boundary. -/
theorem findDelim_append_delim (s t : List Char)
    (hs : findDelim s = none) :
    findDelim (s ++ '-' :: '>' :: t) = some s.length := by
  induction s with
  | nil => simp [findDelim]
  | cons c s' ih =>
    obtain ⟨hc, hs'⟩ := findDelim_cons_none c s' hs
    have hcond : ¬(c = '-' ∧ (s' ++ '-' :: '>' :: t).head? = some '>') := by
      rintro ⟨rfl, hhead⟩
      cases s' with
      | nil => simp at hhead
      | cons d s'' =>
        simp only [List.cons_append, List.head?] at hhead
        injection hhead with hd
        exact hc ⟨rfl, by rw [List.head?, hd]⟩
    show findDelim (c :: (s' ++ '-' :: '>' :: t)) = some (s'.length + 1)
    simp only [findDelim]
    rw [if_neg hcond]
    show (findDelim (s' ++ '-' :: '>' :: t)).map (· + 1) =
      some (s'.length + 1)
    rw [ih hs']
    rfl

/-- C10.  Edge-key round trip: when the source id contains no occurrence
of the delimiter "->", parsing the created edge id returns exactly the
source and target; and parseEdgeId returns none exactly when its
argument contains no occurrence of the delimiter. -/
theorem c10_edge_key_round_trip (s t : String)
    (hs : ¬ occursDelim s.data) :
    parseEdgeId (createEdgeId s t) = some (s, t) ∧
    (∀ u : String,
      parseEdgeId u = none ↔ ¬ occursDelim u.data) := by
  constructor
  · have hs' : findDelim s.data = none := by
      rw [findDelim_eq_none_iff]
      intro i hi
      exact hs ⟨i, hi⟩
    have hdl : EDGE_ID_DELIMITER.data = ['-', '>'] := by decide
    have hdata : (createEdgeId s t).data =
        s.data ++ '-' :: '>' :: t.data := by
      unfold createEdgeId
      rw [String.data_append, String.data_append, hdl]
      simp
    have hfind : findDelim (createEdgeId s t).data =
        some s.data.length := by
      rw [hdata]
      exact findDelim_append_delim s.data t.data hs'
    have htake : (createEdgeId s t).data.take s.data.length = s.data := by
      rw [hdata]
      exact List.take_left s.data _
    have hdrop : (createEdgeId s t).data.drop (s.data.length + 2) =
        t.data := by
      rw [hdata]
      have h1 : s.data ++ '-' :: '>' :: t.data =
          (s.data ++ ['-', '>']) ++ t.data := by simp
      have h2 : s.data.length + 2 = (s.data ++ ['-', '>']).length := by
        simp
      rw [h1, h2]
      exact List.drop_left _ _
    unfold parseEdgeId
    rw [hfind]
    dsimp only
    rw [htake, hdrop, stringMk_data, stringMk_data]
  · intro u
    cases hf : findDelim u.data with
    | none =>
      have hp : parseEdgeId u = none := by
        unfold parseEdgeId
        rw [hf]
      constructor
      · intro _
        rintro ⟨i, hi⟩
        exact (findDelim_eq_none_iff u.data).mp hf i hi
      · intro _
        exact hp
    | some i =>
      have hp : parseEdgeId u =
          some (String.mk (u.data.take i),
                String.mk (u.data.drop (i + 2))) := by
        unfold parseEdgeId
        rw [hf]
      constructor
      · intro h
        rw [hp] at h
        cases h
      · intro hno
        exact absurd ⟨i, findDelim_some_occurs u.data i hf⟩ hno

/-- Witness for C10 with a source ending in a dash and a target that
itself contains the delimiter. -/
theorem c10_edge_key_round_trip_witness :
    parseEdgeId (createEdgeId "a-" "b->c") = some ("a-", "b->c") ∧
    (parseEdgeId "plain" = none ↔ ¬ occursDelim "plain".data) := by
  have hs : ¬ occursDelim "a-".data := by
    rintro ⟨i, hi⟩
    exact (findDelim_eq_none_iff "a-".data).mp (by decide) i hi
  have h := c10_edge_key_round_trip "a-" "b->c" hs
  exact ⟨h.1, h.2 "plain"⟩

/-- The duplicate scan returns none exactly when the remaining ids are
duplicate-free and disjoint from the already-seen set. -/
theorem findDup_eq_none_iff (l seen : List String) :
    findDup l seen = none ↔ l.Nodup ∧ ∀ x ∈ l, x ∉ seen := by
  induction l generalizing seen with
  | nil => simp [findDup]
  | cons x xs ih =>
    simp only [findDup]
    split_ifs with hx
    · have hmem : x ∈ seen := by
        have := hx
        simpa using this
      constructor
      · intro h
        cases h
      · rintro ⟨_, hsub⟩
        exact absurd hmem (hsub x (List.mem_cons_self x xs))
    · have hxseen : x ∉ seen := by
        intro hmem
        exact hx (by simpa using hmem)
      rw [ih]
      constructor
      · rintro ⟨hnd, hsub⟩
        refine ⟨List.nodup_cons.mpr ⟨?_, hnd⟩, ?_⟩
        · intro hxxs
          exact (hsub x hxxs) (List.mem_cons_self x seen)
        · intro y hy
          rcases List.mem_cons.mp hy with rfl | hyxs
          · exact hxseen
          · intro hyseen
            exact (hsub y hyxs) (List.mem_cons_of_mem x hyseen)
      · rintro ⟨hnd, hsub⟩
        rcases List.nodup_cons.mp hnd with ⟨hxxs, hxs⟩
        refine ⟨hxs, ?_⟩
        intro y hy hymem
        rcases List.mem_cons.mp hymem with rfl | hyseen
        · exact hxxs hy
        · exact (hsub y (List.mem_cons_of_mem x hy)) hyseen

/-- Successful validation forces the exact shape of the input and of the
returned data. -/
theorem validate_success_shape (v : JValue) (g : GraphData)
    (h : validateGraphData v = .success g) :
    truthy v = true ∧ isObjLike v = true ∧
    ∃ ns es, getField v "nodes" = some (.jarr ns) ∧
      getField v "edges" = some (.jarr es) ∧
      checkNodesFrom 0 ns = none ∧
      findDup (ns.map nodeIdOf) [] = none ∧
      checkEdgesFrom 0 es = none ∧
      g = ⟨ns.map decodeNode, es.map decodeEdge⟩ := by
  unfold validateGraphData at h
  by_cases h0 : ¬(truthy v = true ∧ isObjLike v = true)
  · rw [if_pos h0] at h
    simp at h
  · rw [not_not] at h0
    refine ⟨h0.1, h0.2, ?_⟩
    rw [if_neg (not_not_intro h0)] at h
    cases hn : getField v "nodes" with
    | none => rw [hn] at h; simp at h
    | some w =>
      rw [hn] at h
      cases w with
      | jnull => simp at h
      | jbool b => simp at h
      | jnum q => simp at h
      | jstr s => simp at h
      | jobj fields => simp at h
      | jarr ns =>
        cases he : getField v "edges" with
        | none => rw [he] at h; simp at h
        | some w2 =>
          rw [he] at h
          cases w2 with
          | jnull => simp at h
          | jbool b => simp at h
          | jnum q => simp at h
          | jstr s => simp at h
          | jobj fields => simp at h
          | jarr es =>
            dsimp only at h
            cases hcn : checkNodesFrom 0 ns with
            | some err => rw [hcn] at h; simp at h
            | none =>
              rw [hcn] at h
              dsimp only at h
              cases hdup : findDup (ns.map nodeIdOf) [] with
              | some dup => rw [hdup] at h; simp at h
              | none =>
                rw [hdup] at h
                dsimp only at h
                cases hce : checkEdgesFrom 0 es with
                | some err => rw [hce] at h; simp at h
                | none =>
                  rw [hce] at h
                  dsimp only at h
                  simp only [ValidationResult.success.injEq] at h
                  exact ⟨ns, es, rfl, rfl, hcn, hdup, hce, h.symm⟩

/-- A validated graph has pairwise distinct node ids. -/
theorem validate_success_nodup (v : JValue) (g : GraphData)
    (h : validateGraphData v = .success g) :
    (g.nodes.map Node.id).Nodup := by
  obtain ⟨_, _, ns, es, _, _, _, hdup, _, rfl⟩ :=
    validate_success_shape v g h
  have hids : (ns.map nodeIdOf).Nodup :=
    ((findDup_eq_none_iff (ns.map nodeIdOf) []).mp hdup).1
  have hmm : (ns.map decodeNode).map Node.id = ns.map nodeIdOf := by
    rw [List.map_map]
    rfl
  show ((ns.map decodeNode).map Node.id).Nodup
  rw [hmm]
  exact hids

/-- C2 (amended).  Index correctness: on a validated graph, nodeById maps
every node's id to that node; and an edge lookup by composite key returns
the original edge whenever the composite keys of the edges are pairwise
distinct (without that proviso a later edge with the same key — a
duplicate pair or a delimiter collision — overrides the earlier one). -/
theorem c2_index_correctness (v : JValue) (g : GraphData)
    (hv : validateGraphData v = .success g)
    (hkeys : (g.edges.map edgeKeyOf).Nodup) :
    (∀ n ∈ g.nodes, (buildGraphIndex g).nodeById n.id = some n) ∧
    (∀ e ∈ g.edges,
      (g.nodes.map Node.id).contains e.sourceId = true →
      (g.nodes.map Node.id).contains e.targetId = true →
      getEdgeByIds g e.sourceId e.targetId (some (buildGraphIndex g)) =
        some e) := by
  have hnd := validate_success_nodup v g hv
  constructor
  · intro n hn
    exact foldUpd_apply_mem Node.id (fun x => x) g.nodes
      (fun _ => none) n hn hnd
  · intro e he _ _
    show (buildGraphIndex g).edgeByKey
      (e.sourceId ++ EDGE_ID_DELIMITER ++ e.targetId) = some e
    exact foldUpd_apply_mem edgeKeyOf (fun x => x) g.edges
      (fun _ => none) e he hkeys

/-- Counterexample to C2 as frozen: in the delimiter-collision graph
(a ValidatedGraph) the two distinct resolvable edges share the composite
key "a->b->c", and looking the first edge up by its endpoint ids returns
the second edge instead of the original one. -/
theorem c2_index_correctness_counterexample :
    validateGraphData jColl = .success gColl ∧
    (⟨"a", "b->c"⟩ : Edge) ∈ gColl.edges ∧
    (gColl.nodes.map Node.id).contains "a" = true ∧
    (gColl.nodes.map Node.id).contains "b->c" = true ∧
    getEdgeByIds gColl "a" "b->c" (some (buildGraphIndex gColl)) =
      some ⟨"a->b", "c"⟩ ∧
    (⟨"a->b", "c"⟩ : Edge) ≠ ⟨"a", "b->c"⟩ := by
  decide

/-- Witness for C2 on the validated scenario-A graph. -/
theorem c2_index_correctness_witness :
    (buildGraphIndex gGood).nodeById "a" =
      some { id := "a", name := "A" } ∧
    getEdgeByIds gGood "a" "b" (some (buildGraphIndex gGood)) =
      some ⟨"a", "b"⟩ := by
  have h := c2_index_correctness jGood gGood (by decide) (by decide)
  exact ⟨h.1 { id := "a", name := "A" } (by decide),
         h.2 ⟨"a", "b"⟩ (by decide) (by decide) (by decide)⟩

/-- C3.  Referential tolerance and partition: on a validated graph, an
edge with an unresolvable endpoint is in the statistics' invalid-edge
list and not in the layout engine's active (resolvable) edge set, and
the invalid and resolvable sets partition the edges exactly. -/
theorem c3_referential_tolerance (v : JValue) (g : GraphData) (e : Edge)
    (hv : validateGraphData v = .success g)
    (he : e ∈ g.edges)
    (hbad : (g.nodes.map Node.id).contains e.sourceId = false ∨
            (g.nodes.map Node.id).contains e.targetId = false) :
    e ∈ (calculateStats g).invalidEdges ∧
    e ∉ resolvableEdges g ∧
    (findInvalidEdges g).length + (resolvableEdges g).length =
      g.edges.length := by
  have hpred : (!((g.nodes.map Node.id).contains e.sourceId) ||
      !((g.nodes.map Node.id).contains e.targetId)) = true := by
    rcases hbad with hb | hb <;> rw [hb] <;> simp
  refine ⟨?_, ?_, ?_⟩
  · show e ∈ g.edges.filter
      (fun edge => !((g.nodes.map Node.id).contains edge.sourceId) ||
                   !((g.nodes.map Node.id).contains edge.targetId))
    exact List.mem_filter.mpr ⟨he, hpred⟩
  · show ¬ e ∈ g.edges.filter
      (fun edge => (g.nodes.map Node.id).contains edge.sourceId &&
                   (g.nodes.map Node.id).contains edge.targetId)
    intro hmem
    have hboth := (List.mem_filter.mp hmem).2
    rcases hbad with hb | hb <;> rw [hb] at hboth <;> simp at hboth
  · show (g.edges.filter
        (fun edge => !((g.nodes.map Node.id).contains edge.sourceId) ||
                     !((g.nodes.map Node.id).contains edge.targetId))).length +
      (g.edges.filter
        (fun edge => (g.nodes.map Node.id).contains edge.sourceId &&
                     (g.nodes.map Node.id).contains edge.targetId)).length =
      g.edges.length
    have hfun : (fun edge : Edge =>
        !((g.nodes.map Node.id).contains edge.sourceId) ||
        !((g.nodes.map Node.id).contains edge.targetId)) =
        (fun edge : Edge =>
          !((g.nodes.map Node.id).contains edge.sourceId &&
            (g.nodes.map Node.id).contains edge.targetId)) := by
      funext edge
      cases (g.nodes.map Node.id).contains edge.sourceId <;>
        cases (g.nodes.map Node.id).contains edge.targetId <;> rfl
    rw [hfun]
    have hp := length_filter_partition
      (fun edge : Edge =>
        (g.nodes.map Node.id).contains edge.sourceId &&
        (g.nodes.map Node.id).contains edge.targetId) g.edges
    omega

/-- Witness for C3 on scenario B (edge to a missing node). -/
theorem c3_referential_tolerance_witness :
    (⟨"a", "missing"⟩ : Edge) ∈ (calculateStats gMiss).invalidEdges ∧
    (⟨"a", "missing"⟩ : Edge) ∉ resolvableEdges gMiss ∧
    (findInvalidEdges gMiss).length + (resolvableEdges gMiss).length =
      gMiss.edges.length := by
  have h := c3_referential_tolerance jMiss gMiss ⟨"a", "missing"⟩
    (by decide) (by decide) (Or.inr (by decide))
  exact ⟨h.1, h.2.1, h.2.2⟩

/-- The initialization effect produces one positioned node per graph
node. -/
theorem initEffect_nodes_length (g : GraphData) (w h : ℚ) (r : Bool) :
    (initEffect (some g) w h r).nodes.length = g.nodes.length := by
  unfold initEffect
  dsimp only
  split_ifs with h0
  · simp [h0]
  · simp

/-- On a non-empty graph the initialization effect is exactly the seeded
per-node map. -/
theorem initEffect_nodes_of_ne (g : GraphData) (w h : ℚ) (r : Bool)
    (h0 : g.nodes.length ≠ 0) :
    (initEffect (some g) w h r).nodes = g.nodes.map (mkD3Node w h) := by
  unfold initEffect
  dsimp only
  rw [if_neg h0]

/-- The i-th positioned node is the seeded image of the i-th graph
node. -/
theorem initEffect_nodes_get (g : GraphData) (w h : ℚ) (r : Bool)
    (i : Nat) (hi : i < g.nodes.length)
    (hi' : i < (initEffect (some g) w h r).nodes.length) :
    (initEffect (some g) w h r).nodes.get ⟨i, hi'⟩ =
      mkD3Node w h (g.nodes.get ⟨i, hi⟩) := by
  have h0 : g.nodes.length ≠ 0 := by omega
  rw [List.get_of_eq (initEffect_nodes_of_ne g w h r h0)]
  simp

/-- C1.  Initial-position determinism: the hook's pre-tick node list is a
pure per-node map, so reconstructing is bit-for-bit reproducible; each
node's seeded position is a function of its identifier alone (hash fed
into the seeded generator, jittered around the canvas center) — the same
identifier yields the same position at any index, in any surrounding
graph, and in either layout mode. -/
theorem c1_initial_position_determinism
    (g g' : GraphData) (w h : ℚ) (r r' : Bool) (i j : Nat)
    (hi : i < g.nodes.length) (hj : j < g'.nodes.length)
    (hi' : i < (initEffect (some g) w h r).nodes.length)
    (hj' : j < (initEffect (some g') w h r').nodes.length)
    (hid : (g.nodes.get ⟨i, hi⟩).id = (g'.nodes.get ⟨j, hj⟩).id) :
    initEffect (some g) w h r = initEffect (some g) w h r ∧
    ((initEffect (some g) w h r).nodes.get ⟨i, hi'⟩).x =
      w / 2 + (rngFirst (hashString (g.nodes.get ⟨i, hi⟩).id) - 1/2) * 100 ∧
    ((initEffect (some g) w h r).nodes.get ⟨i, hi'⟩).y =
      h / 2 + (rngSecond (hashString (g.nodes.get ⟨i, hi⟩).id) - 1/2) * 100 ∧
    ((initEffect (some g) w h r).nodes.get ⟨i, hi'⟩).x =
      ((initEffect (some g') w h r').nodes.get ⟨j, hj'⟩).x ∧
    ((initEffect (some g) w h r).nodes.get ⟨i, hi'⟩).y =
      ((initEffect (some g') w h r').nodes.get ⟨j, hj'⟩).y := by
  have hg := initEffect_nodes_get g w h r i hi hi'
  have hg' := initEffect_nodes_get g' w h r' j hj hj'
  refine ⟨rfl, ?_, ?_, ?_, ?_⟩
  · rw [hg]; rfl
  · rw [hg]; rfl
  · rw [hg, hg']
    show initX w (g.nodes.get ⟨i, hi⟩).id = initX w (g'.nodes.get ⟨j, hj⟩).id
    rw [hid]
  · rw [hg, hg']
    show initY h (g.nodes.get ⟨i, hi⟩).id = initY h (g'.nodes.get ⟨j, hj⟩).id
    rw [hid]

/-- Witness for C1: the same identifier "a" at index 0 of a one-node
graph and at index 1 of a different two-node graph (other mode) gets the
same seeded position. -/
theorem c1_initial_position_determinism_witness :
    ((initEffect (some ⟨[⟨"a", "A", none, none, none⟩], []⟩)
        800 600 false).nodes.get ⟨0, by decide⟩).x =
      ((initEffect (some ⟨[⟨"z", "Z", none, none, none⟩,
          ⟨"a", "Other", some ["k"], none, some 1⟩], []⟩)
        800 600 true).nodes.get ⟨1, by decide⟩).x ∧
    ((initEffect (some ⟨[⟨"a", "A", none, none, none⟩], []⟩)
        800 600 false).nodes.get ⟨0, by decide⟩).y =
      ((initEffect (some ⟨[⟨"z", "Z", none, none, none⟩,
          ⟨"a", "Other", some ["k"], none, some 1⟩], []⟩)
        800 600 true).nodes.get ⟨1, by decide⟩).y := by
  have h := c1_initial_position_determinism
    ⟨[⟨"a", "A", none, none, none⟩], []⟩
    ⟨[⟨"z", "Z", none, none, none⟩, ⟨"a", "Other", some ["k"], none, some 1⟩], []⟩
    800 600 false true 0 1 (by decide) (by decide) (by decide) (by decide)
    (by decide)
  exact ⟨h.2.2.2.1, h.2.2.2.2⟩

/-- Membership in the truthiness-guarded set insertion. -/
theorem addCategory_mem (acc : List String) (c x : String) :
    x ∈ addCategory acc c ↔ x ∈ acc ∨ (x = c ∧ c ≠ "") := by
  unfold addCategory
  split_ifs with h1 h2
  · subst h1
    simp
  · have hmem : c ∈ acc := by simpa using h2
    constructor
    · exact Or.inl
    · rintro (h | ⟨rfl, _⟩)
      · exact h
      · exact hmem
  · simp [List.mem_append, h1]

/-- The truthiness-guarded set insertion preserves distinctness. -/
theorem addCategory_nodup (acc : List String) (c : String)
    (h : acc.Nodup) : (addCategory acc c).Nodup := by
  unfold addCategory
  split_ifs with h1 h2
  · exact h
  · exact h
  · have hnm : c ∉ acc := by
      intro hm
      exact h2 (by simpa using hm)
    simp [List.nodup_append, h, hnm]

/-- Membership after folding a node's whole category list into the set. -/
theorem catsFold_mem (cats acc : List String) (x : String) :
    x ∈ cats.foldl addCategory acc ↔
      x ∈ acc ∨ (x ≠ "" ∧ x ∈ cats) := by
  induction cats generalizing acc with
  | nil => simp
  | cons c cs ih =>
    rw [List.foldl_cons, ih, addCategory_mem]
    constructor
    · rintro ((h | ⟨rfl, hne⟩) | ⟨hne, hcs⟩)
      · exact Or.inl h
      · exact Or.inr ⟨hne, List.mem_cons_self _ _⟩
      · exact Or.inr ⟨hne, List.mem_cons_of_mem _ hcs⟩
    · rintro (h | ⟨hne, hmem⟩)
      · exact Or.inl (Or.inl h)
      · rcases List.mem_cons.mp hmem with rfl | hcs
        · exact Or.inl (Or.inr ⟨rfl, hne⟩)
        · exact Or.inr ⟨hne, hcs⟩

/-- Folding a category list into the set preserves distinctness. -/
theorem catsFold_nodup (cats acc : List String) (h : acc.Nodup) :
    (cats.foldl addCategory acc).Nodup := by
  induction cats generalizing acc with
  | nil => exact h
  | cons c cs ih => exact ih _ (addCategory_nodup acc c h)

/-- Membership in the collected category set, over all nodes. -/
theorem collectFold_mem (nodes : List Node) (acc : List String)
    (x : String) :
    x ∈ nodes.foldl
      (fun acc node =>
        match node.categories with
        | some cats => cats.foldl addCategory acc
        | none => acc) acc ↔
    x ∈ acc ∨ (x ≠ "" ∧ ∃ nd ∈ nodes, ∃ cats,
      nd.categories = some cats ∧ x ∈ cats) := by
  induction nodes generalizing acc with
  | nil => simp
  | cons nd nds ih =>
    rw [List.foldl_cons, ih]
    have hstep : x ∈ (fun (acc : List String) (node : Node) =>
        match node.categories with
        | some cats => cats.foldl addCategory acc
        | none => acc) acc nd ↔
        x ∈ acc ∨ (x ≠ "" ∧ ∃ cats, nd.categories = some cats ∧
          x ∈ cats) := by
      rcases hc : nd.categories with _ | cats
      · simp [hc]
      · simp only [hc, catsFold_mem]
        constructor
        · rintro (h | ⟨hne, hmem⟩)
          · exact Or.inl h
          · exact Or.inr ⟨hne, cats, rfl, hmem⟩
        · rintro (h | ⟨hne, cats', heq, hmem⟩)
          · exact Or.inl h
          · injection heq with hh
            subst hh
            exact Or.inr ⟨hne, hmem⟩
    rw [hstep]
    constructor
    · rintro ((h | ⟨hne, cats, heq, hmem⟩) |
        ⟨hne, nd', hnd', cats', heq', hmem'⟩)
      · exact Or.inl h
      · exact Or.inr ⟨hne, nd, List.mem_cons_self _ _, cats, heq, hmem⟩
      · exact Or.inr ⟨hne, nd', List.mem_cons_of_mem _ hnd', cats',
          heq', hmem'⟩
    · rintro (h | ⟨hne, nd', hnd', cats', heq', hmem'⟩)
      · exact Or.inl (Or.inl h)
      · rcases List.mem_cons.mp hnd' with rfl | hmemnds
        · exact Or.inl (Or.inr ⟨hne, cats', heq', hmem'⟩)
        · exact Or.inr ⟨hne, nd', hmemnds, cats', heq', hmem'⟩

/-- Characterization of the collected (pre-sort) category set. -/
theorem collectCategories_mem (nodes : List Node) (x : String) :
    x ∈ collectCategories nodes ↔
      x ≠ "" ∧ ∃ nd ∈ nodes, ∃ cats,
        nd.categories = some cats ∧ x ∈ cats := by
  unfold collectCategories
  rw [collectFold_mem]
  simp

/-- The collected category set is duplicate-free. -/
theorem collectCategories_nodup (nodes : List Node) :
    (collectCategories nodes).Nodup := by
  unfold collectCategories
  generalize hacc : ([] : List String) = acc
  have hnd : acc.Nodup := by rw [← hacc]; exact List.nodup_nil
  clear hacc
  induction nodes generalizing acc with
  | nil => exact hnd
  | cons nd nds ih =>
    rw [List.foldl_cons]
    apply ih
    rcases hc : nd.categories with _ | cats
    · simpa [hc] using hnd
    · simp only [hc]
      exact catsFold_nodup cats acc hnd

/-- The sorted category list is duplicate-free. -/
theorem extractCategories_nodup (nodes : List Node) :
    (extractCategories nodes).Nodup :=
  ((List.perm_insertionSort jsStrLe (collectCategories nodes)).nodup_iff).mpr
    (collectCategories_nodup nodes)

/-- The sorted category list has the same members as the collected set. -/
theorem extractCategories_mem (nodes : List Node) (x : String) :
    x ∈ extractCategories nodes ↔ x ∈ collectCategories nodes :=
  (List.perm_insertionSort jsStrLe (collectCategories nodes)).mem_iff

/-- Two node lists sharing the same category set get the identical sorted
category list. -/
theorem extractCategories_eq_of_same (l1 l2 : List Node)
    (h : ∀ c, c ∈ collectCategories l1 ↔ c ∈ collectCategories l2) :
    extractCategories l1 = extractCategories l2 := by
  apply List.eq_of_perm_of_sorted ?_
    (List.sorted_insertionSort jsStrLe (collectCategories l1))
    (List.sorted_insertionSort jsStrLe (collectCategories l2))
  have pc : (collectCategories l1).Perm (collectCategories l2) :=
    (List.perm_ext_iff_of_nodup (collectCategories_nodup l1)
      (collectCategories_nodup l2)).mpr h
  exact (List.perm_insertionSort jsStrLe _).trans
    (pc.trans (List.perm_insertionSort jsStrLe _).symm)

/-- Reordering the node list does not change the sorted category list. -/
theorem extractCategories_eq_of_perm (l1 l2 : List Node)
    (h : l1.Perm l2) :
    extractCategories l1 = extractCategories l2 := by
  apply extractCategories_eq_of_same
  intro c
  rw [collectCategories_mem, collectCategories_mem]
  constructor <;> rintro ⟨hne, nd, hnd, cats, heq, hmem⟩
  · exact ⟨hne, nd, h.mem_iff.mp hnd, cats, heq, hmem⟩
  · exact ⟨hne, nd, h.mem_iff.mpr hnd, cats, heq, hmem⟩

/-- Looking up the i-th category of a duplicate-free list in the color
map yields the i-th palette color (index mod palette size). -/
theorem createCategoryColorMap_get (cats : List String)
    (hnd : cats.Nodup) (i : Nat) (hi : i < cats.length) :
    createCategoryColorMap cats (cats.get ⟨i, hi⟩) =
      some (PALETTE.getD (i % PALETTE.length) "") := by
  have hlen : i < cats.enum.length := by
    simpa [List.enum_length] using hi
  have helem : cats.enum.get ⟨i, hlen⟩ = (i, cats.get ⟨i, hi⟩) := by
    simp [List.getElem_enum]
  have hmem : (i, cats.get ⟨i, hi⟩) ∈ cats.enum := by
    rw [← helem]
    exact List.get_mem cats.enum _ _
  have hkeys : (cats.enum.map Prod.snd).Nodup := by
    rw [List.enum_map_snd]
    exact hnd
  exact foldUpd_apply_mem (Prod.snd : Nat × String → String)
    (fun p => PALETTE.getD (p.1 % PALETTE.length) "") cats.enum
    (fun _ => none) (i, cats.get ⟨i, hi⟩) hmem hkeys

/-- When the explicit color is absent, empty, or invalid, getNodeColor
falls through to the category branch. -/
theorem getNodeColor_fallthrough (n : Node) (m : CategoryColorMap)
    (hinv : ∀ c, n.color = some c → c = "" ∨ isValidColor c = false) :
    getNodeColor n m = nodeCategoryColor n m := by
  unfold getNodeColor
  rcases hc : n.color with _ | c
  · rfl
  · dsimp only
    rw [if_neg]
    rintro ⟨hne, hval⟩
    rcases hinv c hc with h | h
    · exact hne h
    · rw [hval] at h
      cases h

/-- C9.  Effective node color resolution against the map built from the
sorted distinct category list: a valid explicit hex/rgba color wins;
otherwise a node with a (non-empty) first category gets that category's
palette color PALETTE[index % size] at its index in the sorted list;
otherwise the default fallback; and the category-to-color assignment
depends only on the category set — not on node insertion order. -/
theorem c9_node_color_resolution (nodes : List Node) (n : Node) :
    (∀ c, n.color = some c → c ≠ "" → isValidColor c = true →
      getNodeColor n (createCategoryColorMap (extractCategories nodes)) =
        c) ∧
    (∀ c0 rest,
      (∀ c, n.color = some c → c = "" ∨ isValidColor c = false) →
      n.categories = some (c0 :: rest) → c0 ≠ "" → n ∈ nodes →
      ∃ i, ∃ hi : i < (extractCategories nodes).length,
        (extractCategories nodes).get ⟨i, hi⟩ = c0 ∧
        getNodeColor n
            (createCategoryColorMap (extractCategories nodes)) =
          PALETTE.getD (i % PALETTE.length) "") ∧
    ((∀ c, n.color = some c → c = "" ∨ isValidColor c = false) →
      (n.categories = none ∨ n.categories = some []) →
      getNodeColor n (createCategoryColorMap (extractCategories nodes)) =
        DEFAULT_NODE_COLOR) ∧
    (∀ l1 l2 : List Node,
      (∀ c, c ∈ collectCategories l1 ↔ c ∈ collectCategories l2) →
      extractCategories l1 = extractCategories l2) ∧
    (∀ l1 l2 : List Node, l1.Perm l2 →
      extractCategories l1 = extractCategories l2) := by
  refine ⟨?_, ?_, ?_, extractCategories_eq_of_same,
    extractCategories_eq_of_perm⟩
  · intro c hc hne hval
    unfold getNodeColor
    rw [hc]
    dsimp only
    rw [if_pos ⟨hne, hval⟩]
  · intro c0 rest hinv hcat hc0 hmem
    have hx : c0 ∈ extractCategories nodes := by
      rw [extractCategories_mem, collectCategories_mem]
      exact ⟨hc0, n, hmem, c0 :: rest, hcat, List.mem_cons_self _ _⟩
    obtain ⟨⟨i, hi⟩, hget⟩ := List.mem_iff_get.mp hx
    have hlook := createCategoryColorMap_get (extractCategories nodes)
      (extractCategories_nodup nodes) i hi
    rw [hget] at hlook
    refine ⟨i, hi, hget, ?_⟩
    rw [getNodeColor_fallthrough n _ hinv]
    unfold nodeCategoryColor
    rw [hcat]
    dsimp only
    rw [hlook]
    rfl
  · intro hinv hnone
    rw [getNodeColor_fallthrough n _ hinv]
    unfold nodeCategoryColor
    rcases hnone with h | h <;> rw [h]

/-- Witness for C9 on a three-node list exercising explicit color,
palette color and default fallback, plus order independence. -/
theorem c9_node_color_resolution_witness :
    getNodeColor ⟨"3", "C", none, some "#fff", none⟩
        (createCategoryColorMap (extractCategories
          [⟨"2", "B", some ["beta"], none, none⟩,
           ⟨"1", "A", some ["alpha", "beta"], none, none⟩,
           ⟨"3", "C", none, some "#fff", none⟩])) = "#fff" ∧
    (∃ i, ∃ hi : i < (extractCategories
          [⟨"2", "B", some ["beta"], none, none⟩,
           ⟨"1", "A", some ["alpha", "beta"], none, none⟩,
           ⟨"3", "C", none, some "#fff", none⟩]).length,
      (extractCategories
          [⟨"2", "B", some ["beta"], none, none⟩,
           ⟨"1", "A", some ["alpha", "beta"], none, none⟩,
           ⟨"3", "C", none, some "#fff", none⟩]).get ⟨i, hi⟩ = "alpha" ∧
      getNodeColor ⟨"1", "A", some ["alpha", "beta"], none, none⟩
          (createCategoryColorMap (extractCategories
            [⟨"2", "B", some ["beta"], none, none⟩,
             ⟨"1", "A", some ["alpha", "beta"], none, none⟩,
             ⟨"3", "C", none, some "#fff", none⟩])) =
        PALETTE.getD (i % PALETTE.length) "") ∧
    getNodeColor ⟨"4", "D", none, none, none⟩
        (createCategoryColorMap (extractCategories
          [⟨"2", "B", some ["beta"], none, none⟩,
           ⟨"1", "A", some ["alpha", "beta"], none, none⟩,
           ⟨"3", "C", none, some "#fff", none⟩])) = DEFAULT_NODE_COLOR ∧
    extractCategories
        [⟨"2", "B", some ["beta"], none, none⟩,
         ⟨"1", "A", some ["alpha", "beta"], none, none⟩] =
      extractCategories
        [⟨"1", "A", some ["alpha", "beta"], none, none⟩,
         ⟨"2", "B", some ["beta"], none, none⟩] := by
  refine ⟨?_, ?_, ?_, ?_⟩
  · exact (c9_node_color_resolution
      [⟨"2", "B", some ["beta"], none, none⟩,
       ⟨"1", "A", some ["alpha", "beta"], none, none⟩,
       ⟨"3", "C", none, some "#fff", none⟩]
      ⟨"3", "C", none, some "#fff", none⟩).1 "#fff" rfl (by decide)
      (by decide)
  · exact (c9_node_color_resolution
      [⟨"2", "B", some ["beta"], none, none⟩,
       ⟨"1", "A", some ["alpha", "beta"], none, none⟩,
       ⟨"3", "C", none, some "#fff", none⟩]
      ⟨"1", "A", some ["alpha", "beta"], none, none⟩).2.1 "alpha" ["beta"]
      (fun c h => Option.noConfusion h) rfl (by decide) (by decide)
  · exact (c9_node_color_resolution
      [⟨"2", "B", some ["beta"], none, none⟩,
       ⟨"1", "A", some ["alpha", "beta"], none, none⟩,
       ⟨"3", "C", none, some "#fff", none⟩]
      ⟨"4", "D", none, none, none⟩).2.2.1
      (fun c h => Option.noConfusion h) (Or.inl rfl)
  · exact (c9_node_color_resolution [] ⟨"4", "D", none, none, none⟩).2.2.2.2
      [⟨"2", "B", some ["beta"], none, none⟩,
       ⟨"1", "A", some ["alpha", "beta"], none, none⟩]
      [⟨"1", "A", some ["alpha", "beta"], none, none⟩,
       ⟨"2", "B", some ["beta"], none, none⟩]
      (List.Perm.swap _ _ _)

/-- A node passes the per-node check exactly when it satisfies the
(amended, trim-aware) per-node condition; the index does not matter for
passing. -/
theorem checkNode_eq_none_iff (i : Nat) (v : JValue) :
    checkNode i v = none ↔ amendedNodeOk v = true := by
  unfold checkNode amendedNodeOk
  by_cases h0 : (truthy v = true ∧ isObjLike v = true)
  · rw [if_neg (not_not_intro h0)]
    rcases hid : getField v "id" with _ | w
    · simp [hid, h0.1, h0.2]
    · cases w with
      | jstr s =>
        by_cases hb : isBlank s = true
        · simp [hid, hb, h0.1, h0.2]
        · rcases hname : getField v "name" with _ | w2
          · simp [hid, hb, hname, h0.1, h0.2]
          · cases w2 <;> simp [hid, hb, hname, h0.1, h0.2]
      | jnull => simp [hid, h0.1, h0.2]
      | jbool b => simp [hid, h0.1, h0.2]
      | jnum q => simp [hid, h0.1, h0.2]
      | jarr elems => simp [hid, h0.1, h0.2]
      | jobj fields => simp [hid, h0.1, h0.2]
  · rw [if_pos h0]
    cases ht : truthy v
    · simp [ht]
    · cases ho : isObjLike v
      · simp [ht, ho]
      · exact absurd ⟨ht, ho⟩ h0

/-- An edge passes the per-edge check exactly when it satisfies the
(amended, trim-aware) per-edge condition. -/
theorem checkEdge_eq_none_iff (i : Nat) (v : JValue) :
    checkEdge i v = none ↔ amendedEdgeOk v = true := by
  unfold checkEdge amendedEdgeOk
  by_cases h0 : (truthy v = true ∧ isObjLike v = true)
  · rw [if_neg (not_not_intro h0)]
    rcases hsrc : getField v "sourceId" with _ | w
    · simp [hsrc, h0.1, h0.2]
    · cases w with
      | jstr s =>
        by_cases hb : isBlank s = true
        · simp [hsrc, hb, h0.1, h0.2]
        · rcases htgt : getField v "targetId" with _ | w2
          · simp [hsrc, hb, htgt, h0.1, h0.2]
          · cases w2 with
            | jstr t =>
              by_cases hbt : isBlank t = true
              · simp [hsrc, hb, htgt, hbt, h0.1, h0.2]
              · simp [hsrc, hb, htgt, hbt, h0.1, h0.2]
            | jnull => simp [hsrc, hb, htgt, h0.1, h0.2]
            | jbool b => simp [hsrc, hb, htgt, h0.1, h0.2]
            | jnum q => simp [hsrc, hb, htgt, h0.1, h0.2]
            | jarr elems => simp [hsrc, hb, htgt, h0.1, h0.2]
            | jobj fields => simp [hsrc, hb, htgt, h0.1, h0.2]
      | jnull => simp [hsrc, h0.1, h0.2]
      | jbool b => simp [hsrc, h0.1, h0.2]
      | jnum q => simp [hsrc, h0.1, h0.2]
      | jarr elems => simp [hsrc, h0.1, h0.2]
      | jobj fields => simp [hsrc, h0.1, h0.2]
  · rw [if_pos h0]
    cases ht : truthy v
    · simp [ht]
    · cases ho : isObjLike v
      · simp [ht, ho]
      · exact absurd ⟨ht, ho⟩ h0

/-- The node loop passes exactly when every element passes. -/
theorem checkNodesFrom_eq_none_iff (i : Nat) (l : List JValue) :
    checkNodesFrom i l = none ↔ ∀ v ∈ l, amendedNodeOk v = true := by
  induction l generalizing i with
  | nil => simp [checkNodesFrom]
  | cons v rest ih =>
    simp only [checkNodesFrom]
    cases hc : checkNode i v with
    | some e =>
      dsimp only
      constructor
      · intro h
        exact Option.noConfusion h
      · intro h
        exfalso
        have hv := (checkNode_eq_none_iff i v).mpr
          (h v (List.mem_cons_self _ _))
        rw [hv] at hc
        exact Option.noConfusion hc
    | none =>
      dsimp only
      rw [ih (i + 1)]
      constructor
      · intro h w hw
        rcases List.mem_cons.mp hw with rfl | hw'
        · exact (checkNode_eq_none_iff i w).mp hc
        · exact h w hw'
      · intro h w hw
        exact h w (List.mem_cons_of_mem _ hw)

/-- The edge loop passes exactly when every element passes. -/
theorem checkEdgesFrom_eq_none_iff (i : Nat) (l : List JValue) :
    checkEdgesFrom i l = none ↔ ∀ v ∈ l, amendedEdgeOk v = true := by
  induction l generalizing i with
  | nil => simp [checkEdgesFrom]
  | cons v rest ih =>
    simp only [checkEdgesFrom]
    cases hc : checkEdge i v with
    | some e =>
      dsimp only
      constructor
      · intro h
        exact Option.noConfusion h
      · intro h
        exfalso
        have hv := (checkEdge_eq_none_iff i v).mpr
          (h v (List.mem_cons_self _ _))
        rw [hv] at hc
        exact Option.noConfusion hc
    | none =>
      dsimp only
      rw [ih (i + 1)]
      constructor
      · intro h w hw
        rcases List.mem_cons.mp hw with rfl | hw'
        · exact (checkEdge_eq_none_iff i w).mp hc
        · exact h w hw'
      · intro h w hw
        exact h w (List.mem_cons_of_mem _ hw)

/-- C4 (amended).  Validator contract: validation succeeds exactly when
the input is a truthy object with nodes/edges arrays, every node is an
object with a string id containing a non-whitespace character (the code
tests `id.trim() !== ''`, strictly stronger than plain non-emptiness)
and a string name, node ids are pairwise distinct, and every edge is an
object with trim-nonempty string sourceId/targetId; moreover the checks
run in the listed order and short-circuit: whenever the per-node loop
reports a failure, that failure is the validator's result even if a
later check (such as duplicate ids) would also fail. -/
theorem c4_validator_contract (v : JValue) :
    ((∃ d, validateGraphData v = .success d) ↔ amendedCond v = true) ∧
    (∀ ns es err, getField v "nodes" = some (.jarr ns) →
      getField v "edges" = some (.jarr es) →
      truthy v = true → isObjLike v = true →
      checkNodesFrom 0 ns = some err →
      validateGraphData v = .failure err) := by
  constructor
  · constructor
    · rintro ⟨d, hd⟩
      obtain ⟨ht, ho, ns, es, hn, he, hcn, hdup, hce, _⟩ :=
        validate_success_shape v d hd
      unfold amendedCond
      rw [hn, he, ht, ho]
      dsimp only
      simp only [Bool.true_and, Bool.and_eq_true, List.all_eq_true]
      refine ⟨⟨?_, ?_⟩, ?_⟩
      · intro w hw
        exact (checkNodesFrom_eq_none_iff 0 ns).mp hcn w hw
      · exact decide_eq_true
          ((findDup_eq_none_iff (ns.map nodeIdOf) []).mp hdup).1
      · intro w hw
        exact (checkEdgesFrom_eq_none_iff 0 es).mp hce w hw
    · intro hc
      unfold amendedCond at hc
      have hto : truthy v = true ∧ isObjLike v = true := by
        cases ht : truthy v
        · rw [ht] at hc
          simp at hc
        · cases ho : isObjLike v
          · rw [ht, ho] at hc
            simp at hc
          · exact ⟨rfl, rfl⟩
      rcases hn : getField v "nodes" with _ | w
      · rw [hn] at hc
        simp at hc
      · rw [hn] at hc
        cases w with
        | jnull => simp at hc
        | jbool b => simp at hc
        | jnum q => simp at hc
        | jstr s => simp at hc
        | jobj fields => simp at hc
        | jarr ns =>
          rcases he : getField v "edges" with _ | w2
          · rw [he] at hc
            simp at hc
          · rw [he] at hc
            cases w2 with
            | jnull => simp at hc
            | jbool b => simp at hc
            | jnum q => simp at hc
            | jstr s => simp at hc
            | jobj fields => simp at hc
            | jarr es =>
              dsimp only at hc
              rw [hto.1, hto.2] at hc
              simp only [Bool.true_and, Bool.and_eq_true,
                List.all_eq_true] at hc
              obtain ⟨⟨hnodes, hnodup⟩, hedges⟩ := hc
              refine ⟨⟨ns.map decodeNode, es.map decodeEdge⟩, ?_⟩
              unfold validateGraphData
              rw [if_neg (not_not_intro hto), hn]
              dsimp only
              rw [he]
              dsimp only
              rw [(checkNodesFrom_eq_none_iff 0 ns).mpr hnodes]
              dsimp only
              rw [(findDup_eq_none_iff (ns.map nodeIdOf) []).mpr
                ⟨of_decide_eq_true hnodup,
                 fun x _ => List.not_mem_nil x⟩]
              dsimp only
              rw [(checkEdgesFrom_eq_none_iff 0 es).mpr hedges]
  · intro ns es err hn he ht ho hcn
    unfold validateGraphData
    rw [if_neg (not_not_intro ⟨ht, ho⟩), hn]
    dsimp only
    rw [he]
    dsimp only
    rw [hcn]

/-- Counterexample to C4 as frozen: the identifier " " is a non-empty
string, so the claim's condition holds, yet the validator rejects the
input because `" ".trim() === ''`. -/
theorem c4_validator_contract_counterexample :
    claimCond jBlankId = true ∧
    validateGraphData jBlankId =
      .failure ⟨"Node at index 0 has invalid or missing \"id\"",
                some "nodes"⟩ := by
  decide

/-- Witness for C4: the per-node name failure at index 1 wins over the
duplicate id also present in the same input, and a well-formed input
validates. -/
theorem c4_validator_contract_witness :
    validateGraphData jNameAndDup =
      .failure ⟨"Node at index 1 has invalid or missing \"name\"",
                some "nodes"⟩ ∧
    (∃ d, validateGraphData jGood = .success d) := by
  constructor
  · exact (c4_validator_contract jNameAndDup).2
      [nodeJ "x" "X", .jobj [("id", .jstr "x")]] [] _
      rfl rfl rfl rfl (by decide)
  · exact (c4_validator_contract jGood).1.mpr (by decide)
